import Mathlib

/-!
Verification of the Loki Mode trust core: the approval-gate state machine of
`src/policies/approval.js` and the spec-described chain-hashed audit ledger.
JavaScript numbers are modelled as rationals, the single-threaded event loop
as a sequence of atomic operations on an explicit manager state, promise
resolution as a ghost list of resolution events, and file-system effects as a
ghost trace of file-system operations.
-/

namespace LokiSpec

/-- Default auto-approve timeout in minutes, `DEFAULT_TIMEOUT_MINUTES` in
`approval.js`. -/
def DEFAULT_TIMEOUT_MINUTES : ℚ := 30

/-- Approval request states, `APPROVAL_STATES` in `approval.js`. -/
inductive Status
  | pending
  | approved
  | rejected
  | timed_out
deriving DecidableEq

/-- Gate definition from policies: `{name, phase, timeout_minutes, webhook}`.
A missing or `null` `timeout_minutes` is `none`; the JS falsy check
`gate.timeout_minutes || DEFAULT_TIMEOUT_MINUTES` additionally treats `0` as
absent. -/
structure GateDef where
  name : String
  phase : String
  timeout_minutes : Option ℚ
  webhook : Option String
deriving DecidableEq

/-- An approval request record as pushed onto `this._state.requests`.
Timestamps (`Date.now` / ISO strings) are modelled as abstract naturals. -/
structure Request where
  id : String
  phase : String
  gate : String
  status : Status
  context : String
  createdAt : Nat
  resolvedAt : Option Nat
  method : Option String
  reason : Option String
deriving DecidableEq

/-- An audit record as pushed by `_addAudit`. -/
structure AuditRecord where
  id : String
  phase : String
  gate : String
  status : Status
  method : Option String
  reason : Option String
  createdAt : Nat
  resolvedAt : Option Nat
deriving DecidableEq

/-- The value a `requestApproval` promise resolves with. -/
structure ApprovalResult where
  approved : Bool
  reason : String
  method : String
deriving DecidableEq

/-- One entry of `this._pendingTimers`: the JS object holds the timer handle,
the promise resolver and a reference to the request object; the armed delay
and the timeout reason are derived from the gate captured by the closure, so
the entry carries the request and the gate. -/
structure PendingEntry where
  request : Request
  gate : GateDef
deriving DecidableEq

/-- File-system operations performed by the manager, recorded as a ghost
trace. `JSON.stringify(this._state)` is modelled by carrying the persisted
data itself in the write operation. -/
inductive FsOp
  | mkdirRec (dir : String)
  | writeFile (file : String) (requests : List Request) (audit : List AuditRecord)
  | rename (src : String) (dst : String)
deriving DecidableEq

/-- Path of the persisted state file, relative to the project directory. -/
def stateFile : String := ".loki/state/approvals.json"

/-- Directory of the persisted state file. -/
def stateDir : String := ".loki/state"

/-- The whole mutable state of an `ApprovalGateManager` instance, plus ghost
components: `resolutions` records every promise resolution `(requestId,
result)` in order, `webhooks` records fired webhook notifications, and
`fsTrace` records file-system operations. -/
structure ManagerState where
  gates : List GateDef
  requests : List Request
  audit : List AuditRecord
  pendingTimers : List PendingEntry
  resolutions : List (String × ApprovalResult)
  webhooks : List (String × String)
  fsTrace : List FsOp
  stateDirExists : Bool
deriving DecidableEq

/-- Gate lookup `findGate`: first gate whose `phase` matches. -/
def findGate (gates : List GateDef) (phase : String) : Option GateDef :=
  gates.find? (fun g => decide (g.phase = phase))

/-- Gate lookup `hasGate`. -/
def hasGate (gates : List GateDef) (phase : String) : Bool :=
  (findGate gates phase).isSome

/-- Effective timeout in minutes: `gate.timeout_minutes ||
DEFAULT_TIMEOUT_MINUTES` (JS falsy: absent, `null`, or `0`). -/
def effMinutes (g : GateDef) : ℚ :=
  match g.timeout_minutes with
  | none => DEFAULT_TIMEOUT_MINUTES
  | some q => if q = 0 then DEFAULT_TIMEOUT_MINUTES else q

/-- Armed `setTimeout` delay in milliseconds: `(gate.timeout_minutes ||
DEFAULT_TIMEOUT_MINUTES) * 60 * 1000`. -/
def timeoutMs (g : GateDef) : ℚ :=
  effMinutes g * 60 * 1000

/-- File-system operations of one `_saveState` call: conditonal recursive
`mkdir` of the state directory, then one whole-file write of the serialized
state. -/
def saveStateOps (dirExists : Bool) (requests : List Request)
    (audit : List AuditRecord) : List FsOp :=
  (if dirExists then [] else [FsOp.mkdirRec stateDir]) ++
    [FsOp.writeFile stateFile requests audit]

/-- Effect of `_saveState` on the manager state (ghost trace only; the
directory exists afterwards). -/
def saveState (s : ManagerState) : ManagerState :=
  { s with
    fsTrace := s.fsTrace ++ saveStateOps s.stateDirExists s.requests s.audit
    stateDirExists := true }

/-- Audit record built from a request by `_addAudit`. -/
def auditOf (r : Request) : AuditRecord :=
  ⟨r.id, r.phase, r.gate, r.status, r.method, r.reason, r.createdAt, r.resolvedAt⟩

/-- Fire-and-forget webhook dispatch: recorded as a ghost event when the gate
has a webhook URL (`_sendWebhook`; transport and its failures are invisible
to the manager). -/
def pushWebhook (s : ManagerState) (gate : GateDef) (rid : String) : ManagerState :=
  match gate.webhook with
  | some url => { s with webhooks := s.webhooks ++ [(url, rid)] }
  | none => s

/-- The fresh pending request built by `requestApproval` when a gate
matches. -/
def newRequest (phase ctx rid : String) (now : Nat) (gate : GateDef) : Request :=
  ⟨rid, phase, gate.name, Status.pending, ctx, now, none, none, none⟩

/-- Gated branch of `requestApproval`: push the pending request, save state,
fire the webhook, then arm the timer and store the pending entry (the promise
executor runs synchronously). -/
def requestWithGate (s : ManagerState) (phase ctx rid : String) (now : Nat)
    (gate : GateDef) : ManagerState :=
  let req := newRequest phase ctx rid now gate
  let s1 := pushWebhook (saveState { s with requests := s.requests ++ [req] }) gate rid
  { s1 with pendingTimers := s1.pendingTimers ++ [⟨req, gate⟩] }

/-- The `requestApproval(phase, context)` operation. Returns the new state
and `some result` when the promise resolves immediately (no gate), `none`
when it is left pending. `rid` is the generated request id, `now` the
clock reading. -/
def requestApproval (s : ManagerState) (phase ctx rid : String) (now : Nat) :
    ManagerState × Option ApprovalResult :=
  match findGate s.gates phase with
  | none => (s, some ⟨true, "No approval gate configured for phase: " ++ phase, "auto"⟩)
  | some gate => (requestWithGate s phase ctx rid now gate, none)

/-- Lookup of `this._pendingTimers[requestId]`. -/
def findTimer (s : ManagerState) (rid : String) : Option PendingEntry :=
  s.pendingTimers.find? (fun p => decide (p.request.id = rid))

/-- Effect of `delete this._pendingTimers[requestId]`. -/
def removeTimer (timers : List PendingEntry) (rid : String) : List PendingEntry :=
  timers.filter (fun p => decide (p.request.id ≠ rid))

/-- In-place mutation of the shared request object, seen through
`this._state.requests`: the entry with the mutated object's id is replaced. -/
def setRequest (requests : List Request) (req : Request) : List Request :=
  requests.map (fun r => if r.id = req.id then req else r)

/-- Reason string of a timeout resolution. -/
def timeoutReason (g : GateDef) : String :=
  "Auto-approved after " ++ toString (effMinutes g) ++ " minute timeout"

/-- The timer callback for request `rid` firing. It can only run while the
entry is still in `_pendingTimers` (manual resolution clears the timer when
it removes the entry); the callback removes the entry, marks the request
timed out, audits, saves, and resolves the promise approved. -/
def timerFire (s : ManagerState) (rid : String) (now : Nat) : ManagerState :=
  match findTimer s rid with
  | none => s
  | some p =>
      let rsn := timeoutReason p.gate
      let req := { p.request with
        status := Status.timed_out
        resolvedAt := some now
        method := some "timeout"
        reason := some rsn }
      let s1 := saveState { s with
        pendingTimers := removeTimer s.pendingTimers rid
        requests := setRequest s.requests req
        audit := s.audit ++ [auditOf req] }
      { s1 with resolutions := s1.resolutions ++ [(rid, ⟨true, rsn, "timeout"⟩)] }

/-- Resolution reason: `reason || (approved ? 'Manually approved' :
'Manually rejected')` (the empty string is falsy in JS). -/
def manualReason (approved : Bool) (reason : Option String) : String :=
  let dflt := if approved then "Manually approved" else "Manually rejected"
  match reason with
  | some r => if r = "" then dflt else r
  | none => dflt

/-- The `resolveApproval(requestId, approved, reason)` operation: returns the
new state and the boolean result. Unknown or no-longer-pending ids (no
`_pendingTimers` entry) return `false` without touching anything. -/
def resolveApproval (s : ManagerState) (rid : String) (approved : Bool)
    (reason : Option String) (now : Nat) : ManagerState × Bool :=
  match findTimer s rid with
  | none => (s, false)
  | some p =>
      let rsn := manualReason approved reason
      let req := { p.request with
        status := if approved then Status.approved else Status.rejected
        resolvedAt := some now
        method := some "manual"
        reason := some rsn }
      let s1 := saveState { s with
        pendingTimers := removeTimer s.pendingTimers rid
        requests := setRequest s.requests req
        audit := s.audit ++ [auditOf req] }
      ({ s1 with resolutions := s1.resolutions ++ [(rid, ⟨approved, rsn, "manual"⟩)] }, true)

/-- Read accessor `getPendingRequests`. -/
def getPendingRequests (s : ManagerState) : List Request :=
  s.requests.filter (fun r => decide (r.status = Status.pending))

/-- Read accessor `getAuditTrail`. -/
def getAuditTrail (s : ManagerState) : List AuditRecord :=
  s.audit

/-- Status of the request with a given id, as read from persisted state. -/
def statusOf (s : ManagerState) (rid : String) : Option Status :=
  (s.requests.find? (fun r => decide (r.id = rid))).map (fun r => r.status)

/-- Armed timer delay for a pending request id, in milliseconds. -/
def timerDelayMs (s : ManagerState) (rid : String) : Option ℚ :=
  (findTimer s rid).map (fun p => timeoutMs p.gate)

/-- Persisted approval state `{requests, audit}`. -/
structure PersistedState where
  requests : List Request
  audit : List AuditRecord
deriving DecidableEq

/-- The `_loadState` method: if the file exists, read it (a read failure is
`none`) and parse it (`JSON.parse` failure is `none`); any failure yields the
empty state. `parseJson` abstracts `JSON.parse` on raw file contents. -/
def loadState (parseJson : String → Option PersistedState)
    (fileExists : Bool) (readResult : Option String) : PersistedState :=
  if fileExists then
    match readResult with
    | none => ⟨[], []⟩
    | some raw =>
        match parseJson raw with
        | none => ⟨[], []⟩
        | some st => st
  else ⟨[], []⟩

/-- The constructor of `ApprovalGateManager`: loads persisted state and
starts with no pending timers and empty ghost traces. -/
def mkManager (gates : List GateDef) (parseJson : String → Option PersistedState)
    (fileExists : Bool) (readResult : Option String) (dirExists : Bool) :
    ManagerState :=
  let st := loadState parseJson fileExists readResult
  ⟨gates, st.requests, st.audit, [], [], [], [], dirExists⟩

/-- One atomic event-loop turn touching the manager: an incoming
`requestApproval` call, a timer callback firing, or a `resolveApproval`
call. -/
inductive Op
  | request (phase ctx rid : String) (now : Nat)
  | fire (rid : String) (now : Nat)
  | resolve (rid : String) (approved : Bool) (reason : Option String) (now : Nat)
deriving DecidableEq

/-- State after one operation. -/
def step (s : ManagerState) : Op → ManagerState
  | Op.request phase ctx rid now => (requestApproval s phase ctx rid now).1
  | Op.fire rid now => timerFire s rid now
  | Op.resolve rid approved reason now => (resolveApproval s rid approved reason now).1

/-- Request-id freshness of one operation: generated request ids
(`'apr-' + Date.now() + '-' + random`) do not collide with stored ones. -/
def stepOkB (s : ManagerState) : Op → Bool
  | Op.request _ _ rid _ => s.requests.all (fun r => decide (r.id ≠ rid))
  | _ => true

/-- State after a sequence of operations. -/
def run (s : ManagerState) : List Op → ManagerState
  | [] => s
  | op :: ops => run (step s op) ops

/-- Freshness along a whole run. -/
def runOkB (s : ManagerState) : List Op → Bool
  | [] => true
  | op :: ops => stepOkB s op && runOkB (step s op) ops

/-- Structural invariant of the manager: every pending-timer entry refers to
a request that is pending, stored, and the unique stored request with its
id (the JS entry aliases the stored object). -/
def Inv (s : ManagerState) : Prop :=
  ∀ p ∈ s.pendingTimers, p.request.status = Status.pending ∧
    p.request ∈ s.requests ∧
    ∀ r ∈ s.requests, r.id = p.request.id → r = p.request

instance instInvDecidable (s : ManagerState) : Decidable (Inv s) := by
  unfold Inv; infer_instance

/-! Audit Ledger: chain-hash construction and verification.

Modelled from the spec: the audit-ledger implementation (the dashboard audit
module providing `verify_log_integrity`) is not among the sources, only its
documentation. Following the spec, an entry is its canonical serialization
minus the `chain_hash` field (the `body`, abstracted to a natural number;
canonical serialization is injective by the spec's determinism requirement)
together with its `chain_hash`; hash values are likewise abstracted, and the
SHA-256 step over `previous_hash || body` is a parameter `H prev body`. -/

/-- One parsed line of a ledger segment: serialized body plus stored chain
hash. -/
structure LedgerEntry where
  body : Nat
  chain_hash : Nat
deriving DecidableEq

/-- Modelled from the spec: the fixed genesis chain value (the string of 64
zero characters) abstracted into the hash-value domain. -/
def genesisHash : Nat := 0

/-- Modelled from the spec: appending bodies in order, each entry's
`chain_hash` is `H` of the previous chain value and the entry body; the
first entry chains from the given previous value. -/
def buildLedger (H : Nat → Nat → Nat) : Nat → List Nat → List LedgerEntry
  | _, [] => []
  | prev, b :: bs => ⟨b, H prev b⟩ :: buildLedger H (H prev b) bs

/-- Result of `verify`: `{valid, entriesChecked, firstTamperedLine}`. -/
structure VerifyResult where
  valid : Bool
  entriesChecked : Nat
  firstTamperedLine : Option Nat
deriving DecidableEq

/-- Modelled from the spec: verification walk. `idx` is the 0-based line of
the head of the remaining segment; an unparseable line (`none`) or a
`chain_hash` differing from the recomputed value fails closed at that
line. -/
def verifyFrom (H : Nat → Nat → Nat) : Nat → Nat → List (Option LedgerEntry) → VerifyResult
  | _, idx, [] => ⟨true, idx, none⟩
  | _, idx, none :: _ => ⟨false, idx, some idx⟩
  | prev, idx, some e :: rest =>
      if H prev e.body = e.chain_hash then verifyFrom H e.chain_hash (idx + 1) rest
      else ⟨false, idx, some idx⟩

/-- Modelled from the spec: `verify(segment)` recomputes the chain from
genesis. -/
def verify (H : Nat → Nat → Nat) (lines : List (Option LedgerEntry)) : VerifyResult :=
  verifyFrom H genesisHash 0 lines

/-- Chain invariant of a stored segment relative to a previous chain value:
each entry's stored `chain_hash` is `H` of the previous chain value and its
own body. -/
def ChainOk (H : Nat → Nat → Nat) : Nat → List LedgerEntry → Prop
  | _, [] => True
  | prev, e :: es => e.chain_hash = H prev e.body ∧ ChainOk H e.chain_hash es

/-- Recomputation failure of every entry of a suffix: recomputing the chain
from value `rprev`, every entry's stored `chain_hash` differs from the
recomputed value. -/
def RecomputedMismatch (H : Nat → Nat → Nat) : Nat → List LedgerEntry → Prop
  | _, [] => True
  | rprev, e :: es => H rprev e.body ≠ e.chain_hash ∧ RecomputedMismatch H (H rprev e.body) es

def chainOkDec (H : Nat → Nat → Nat) : (p : Nat) → (es : List LedgerEntry) →
    Decidable (ChainOk H p es)
  | _, [] => isTrue trivial
  | _, e :: es => @instDecidableAnd _ _ (Nat.decEq _ _) (chainOkDec H e.chain_hash es)

instance instChainOkDec (H : Nat → Nat → Nat) (p : Nat) (es : List LedgerEntry) :
    Decidable (ChainOk H p es) := chainOkDec H p es

def recomputedMismatchDec (H : Nat → Nat → Nat) : (r : Nat) → (es : List LedgerEntry) →
    Decidable (RecomputedMismatch H r es)
  | _, [] => isTrue trivial
  | r, e :: es =>
      @instDecidableAnd _ _ (@instDecidableNot _ (Nat.decEq _ _))
        (recomputedMismatchDec H (H r e.body) es)

instance instRecomputedMismatchDec (H : Nat → Nat → Nat) (r : Nat)
    (es : List LedgerEntry) : Decidable (RecomputedMismatch H r es) :=
  recomputedMismatchDec H r es

/-! Helper lemmas. -/

@[simp] theorem saveState_gates (s : ManagerState) : (saveState s).gates = s.gates := rfl

@[simp] theorem saveState_requests (s : ManagerState) :
    (saveState s).requests = s.requests := rfl

@[simp] theorem saveState_audit (s : ManagerState) : (saveState s).audit = s.audit := rfl

@[simp] theorem saveState_pendingTimers (s : ManagerState) :
    (saveState s).pendingTimers = s.pendingTimers := rfl

@[simp] theorem saveState_resolutions (s : ManagerState) :
    (saveState s).resolutions = s.resolutions := rfl

@[simp] theorem saveState_fsTrace (s : ManagerState) :
    (saveState s).fsTrace = s.fsTrace ++ saveStateOps s.stateDirExists s.requests s.audit :=
  rfl

@[simp] theorem pushWebhook_gates (s : ManagerState) (g : GateDef) (rid : String) :
    (pushWebhook s g rid).gates = s.gates := by
  unfold pushWebhook; cases g.webhook <;> rfl

@[simp] theorem pushWebhook_requests (s : ManagerState) (g : GateDef) (rid : String) :
    (pushWebhook s g rid).requests = s.requests := by
  unfold pushWebhook; cases g.webhook <;> rfl

@[simp] theorem pushWebhook_audit (s : ManagerState) (g : GateDef) (rid : String) :
    (pushWebhook s g rid).audit = s.audit := by
  unfold pushWebhook; cases g.webhook <;> rfl

@[simp] theorem pushWebhook_pendingTimers (s : ManagerState) (g : GateDef) (rid : String) :
    (pushWebhook s g rid).pendingTimers = s.pendingTimers := by
  unfold pushWebhook; cases g.webhook <;> rfl

@[simp] theorem pushWebhook_resolutions (s : ManagerState) (g : GateDef) (rid : String) :
    (pushWebhook s g rid).resolutions = s.resolutions := by
  unfold pushWebhook; cases g.webhook <;> rfl

@[simp] theorem pushWebhook_fsTrace (s : ManagerState) (g : GateDef) (rid : String) :
    (pushWebhook s g rid).fsTrace = s.fsTrace := by
  unfold pushWebhook; cases g.webhook <;> rfl

@[simp] theorem pushWebhook_stateDirExists (s : ManagerState) (g : GateDef) (rid : String) :
    (pushWebhook s g rid).stateDirExists = s.stateDirExists := by
  unfold pushWebhook; cases g.webhook <;> rfl

@[simp] theorem requestWithGate_gates (s : ManagerState) (phase ctx rid : String)
    (now : Nat) (gate : GateDef) :
    (requestWithGate s phase ctx rid now gate).gates = s.gates := by
  unfold requestWithGate; simp

@[simp] theorem requestWithGate_requests (s : ManagerState) (phase ctx rid : String)
    (now : Nat) (gate : GateDef) :
    (requestWithGate s phase ctx rid now gate).requests =
      s.requests ++ [newRequest phase ctx rid now gate] := by
  unfold requestWithGate; simp

@[simp] theorem requestWithGate_audit (s : ManagerState) (phase ctx rid : String)
    (now : Nat) (gate : GateDef) :
    (requestWithGate s phase ctx rid now gate).audit = s.audit := by
  unfold requestWithGate; simp

@[simp] theorem requestWithGate_pendingTimers (s : ManagerState) (phase ctx rid : String)
    (now : Nat) (gate : GateDef) :
    (requestWithGate s phase ctx rid now gate).pendingTimers =
      s.pendingTimers ++ [⟨newRequest phase ctx rid now gate, gate⟩] := by
  unfold requestWithGate; simp

@[simp] theorem requestWithGate_resolutions (s : ManagerState) (phase ctx rid : String)
    (now : Nat) (gate : GateDef) :
    (requestWithGate s phase ctx rid now gate).resolutions = s.resolutions := by
  unfold requestWithGate; simp

@[simp] theorem requestWithGate_fsTrace (s : ManagerState) (phase ctx rid : String)
    (now : Nat) (gate : GateDef) :
    (requestWithGate s phase ctx rid now gate).fsTrace =
      s.fsTrace ++ saveStateOps s.stateDirExists
        (s.requests ++ [newRequest phase ctx rid now gate]) s.audit := by
  unfold requestWithGate; simp

theorem find?_append_of_none {α : Type _} {p : α → Bool} {l₁ : List α} (l₂ : List α)
    (h : l₁.find? p = none) : (l₁ ++ l₂).find? p = l₂.find? p := by
  induction l₁ with
  | nil => rfl
  | cons a l ih =>
      cases hpa : p a with
      | true => rw [List.find?_cons_of_pos _ hpa] at h; exact absurd h (by simp)
      | false =>
          rw [List.find?_cons_of_neg _ (by simp [hpa])] at h
          rw [List.cons_append, List.find?_cons_of_neg _ (by simp [hpa])]
          exact ih h

theorem find?_timers_none_of_fresh {timers : List PendingEntry} {rid : String}
    (h : ∀ p ∈ timers, p.request.id ≠ rid) :
    timers.find? (fun p => decide (p.request.id = rid)) = none := by
  apply List.find?_eq_none.mpr
  intro p hp
  simpa using h p hp

theorem findTimer_requestWithGate (s : ManagerState) (phase ctx rid : String)
    (now : Nat) (gate : GateDef)
    (hfresh : ∀ p ∈ s.pendingTimers, p.request.id ≠ rid) :
    findTimer (requestWithGate s phase ctx rid now gate) rid =
      some ⟨newRequest phase ctx rid now gate, gate⟩ := by
  unfold findTimer
  rw [requestWithGate_pendingTimers,
    find?_append_of_none _ (find?_timers_none_of_fresh hfresh)]
  simp [newRequest]

theorem find?_removeTimer (timers : List PendingEntry) (rid : String) :
    (removeTimer timers rid).find? (fun p => decide (p.request.id = rid)) = none := by
  apply List.find?_eq_none.mpr
  intro p hp
  have h2 := (List.mem_filter.mp hp).2
  simp only [decide_eq_true_eq] at h2 ⊢
  exact h2

theorem findTimer_some_elim {s : ManagerState} {rid : String} {p : PendingEntry}
    (h : findTimer s rid = some p) :
    p ∈ s.pendingTimers ∧ p.request.id = rid := by
  unfold findTimer at h
  refine ⟨List.mem_of_find?_eq_some h, ?_⟩
  have := List.find?_some h
  simpa using this

/-! Claim theorems. -/

/-- C4: when no gate matches the phase, `requestApproval` resolves
immediately with approved-true and method auto, and performs no state change
at all: no request is created or persisted, and no timer is armed. -/
theorem requestApproval_no_gate_auto (s : ManagerState) (phase ctx rid : String)
    (now : Nat) (h : findGate s.gates phase = none) :
    requestApproval s phase ctx rid now =
      (s, some ⟨true, "No approval gate configured for phase: " ++ phase, "auto"⟩) := by
  unfold requestApproval
  rw [h]

/-- C4 witness: with no gates configured, a request for phase build resolves
immediately with method auto on the untouched state. -/
theorem requestApproval_no_gate_auto_witness :
    findGate (mkManager [] (fun _ => none) false none true).gates "build" = none ∧
    requestApproval (mkManager [] (fun _ => none) false none true) "build" "" "r1" 0 =
      (mkManager [] (fun _ => none) false none true,
        some ⟨true, "No approval gate configured for phase: " ++ "build", "auto"⟩) :=
  ⟨by decide,
    requestApproval_no_gate_auto (mkManager [] (fun _ => none) false none true)
      "build" "" "r1" 0 (by decide)⟩

/-- C8: a state file that exists but is unreadable, or whose contents fail
to parse as JSON, yields a manager that constructs successfully with the
empty state (no requests, no audit records). -/
theorem corrupt_state_loads_empty (gates : List GateDef)
    (parseJson : String → Option PersistedState) (readResult : Option String)
    (dirExists : Bool)
    (h : readResult = none ∨ ∃ raw, readResult = some raw ∧ parseJson raw = none) :
    (mkManager gates parseJson true readResult dirExists).requests = [] ∧
    (mkManager gates parseJson true readResult dirExists).audit = [] := by
  rcases h with h | ⟨raw, hr, hp⟩
  · subst h; simp [mkManager, loadState]
  · subst hr; simp [mkManager, loadState, hp]

/-- C8 witness: a file whose contents do not parse yields the empty state. -/
theorem corrupt_state_loads_empty_witness :
    ((some "corrupt" : Option String) = none ∨
      ∃ raw, (some "corrupt" : Option String) = some raw ∧
        (fun _ => (none : Option PersistedState)) raw = none) ∧
    ((mkManager [] (fun _ => none) true (some "corrupt") true).requests = [] ∧
     (mkManager [] (fun _ => none) true (some "corrupt") true).audit = []) :=
  ⟨Or.inr ⟨"corrupt", rfl, rfl⟩,
    corrupt_state_loads_empty [] (fun _ => none) (some "corrupt") true
      (Or.inr ⟨"corrupt", rfl, rfl⟩)⟩

/-- C9: a gate whose `timeout_minutes` is 0, null, or absent arms the timer
for the 30-minute default: the armed delay is `DEFAULT_TIMEOUT_MINUTES`
minutes in milliseconds, so a zero-minute timeout cannot be configured. -/
theorem falsy_timeout_uses_default (s : ManagerState) (phase ctx rid : String)
    (now : Nat) (gate : GateDef)
    (hg : findGate s.gates phase = some gate)
    (hfalsy : gate.timeout_minutes = none ∨ gate.timeout_minutes = some 0)
    (hfresh : ∀ p ∈ s.pendingTimers, p.request.id ≠ rid) :
    timerDelayMs (requestApproval s phase ctx rid now).1 rid =
      some (DEFAULT_TIMEOUT_MINUTES * 60 * 1000) ∧
    DEFAULT_TIMEOUT_MINUTES * 60 * 1000 = (1800000 : ℚ) := by
  constructor
  · unfold requestApproval
    rw [hg]
    unfold timerDelayMs
    rw [findTimer_requestWithGate s phase ctx rid now gate hfresh]
    unfold timeoutMs effMinutes
    rcases hfalsy with h0 | h0 <;> simp [h0]
  · norm_num [DEFAULT_TIMEOUT_MINUTES]

/-- C9 witness: a gate with `timeout_minutes = 0` arms the default
30-minute delay. -/
theorem falsy_timeout_uses_default_witness :
    (findGate (mkManager [⟨"g", "deploy", some 0, none⟩] (fun _ => none) false none
        true).gates "deploy" = some ⟨"g", "deploy", some 0, none⟩) ∧
    (timerDelayMs
        (requestApproval
          (mkManager [⟨"g", "deploy", some 0, none⟩] (fun _ => none) false none true)
          "deploy" "" "r1" 0).1 "r1" =
        some (DEFAULT_TIMEOUT_MINUTES * 60 * 1000) ∧
      DEFAULT_TIMEOUT_MINUTES * 60 * 1000 = (1800000 : ℚ)) :=
  ⟨by decide,
    falsy_timeout_uses_default
      (mkManager [⟨"g", "deploy", some 0, none⟩] (fun _ => none) false none true)
      "deploy" "" "r1" 0 ⟨"g", "deploy", some 0, none⟩ (by decide)
      (Or.inr rfl) (by decide)⟩

/-- C10: resolving a pending request with the reason argument omitted uses
the default reason: the promise result, the stored request, and the appended
audit record all carry Manually approved when approving and Manually
rejected when rejecting. -/
theorem manual_resolution_default_reason (s : ManagerState) (rid : String)
    (approved : Bool) (now : Nat) (p : PendingEntry)
    (h : findTimer s rid = some p) :
    (resolveApproval s rid approved none now).1.resolutions =
      s.resolutions ++
        [(rid, ⟨approved, if approved then "Manually approved" else "Manually rejected",
          "manual"⟩)] ∧
    (∃ rec, (resolveApproval s rid approved none now).1.audit = s.audit ++ [rec] ∧
      rec.reason = some (if approved then "Manually approved" else "Manually rejected") ∧
      rec.method = some "manual") ∧
    (∀ r ∈ (resolveApproval s rid approved none now).1.requests, r.id = rid →
      r.reason = some (if approved then "Manually approved" else "Manually rejected")) := by
  have hid := (findTimer_some_elim h).2
  unfold resolveApproval
  rw [h]
  simp only [saveState_resolutions, saveState_audit, saveState_requests]
  refine ⟨?_, ?_, ?_⟩
  · simp [manualReason]
  · refine ⟨_, rfl, ?_, rfl⟩
    simp [auditOf, manualReason]
  · intro r hr hrid
    simp only [setRequest, List.mem_map] at hr
    rcases hr with ⟨r0, _, hr0⟩
    by_cases hc : r0.id = rid
    · rw [if_pos (by simpa [hid] using hc)] at hr0
      subst hr0
      simp [manualReason]
    · rw [if_neg (by simpa [hid] using hc)] at hr0
      subst hr0
      exact absurd hrid hc

theorem find?_setRequest_append (requests : List Request) (req0 req : Request)
    (rid : String) (hid0 : req0.id = req.id) (hid : req.id = rid)
    (hfresh : ∀ r ∈ requests, r.id ≠ rid) :
    (setRequest (requests ++ [req0]) req).find? (fun r => decide (r.id = rid)) =
      some req := by
  induction requests with
  | nil =>
      simp only [List.nil_append, setRequest, List.map_cons, List.map_nil, if_pos hid0]
      simp [hid]
  | cons a l ih =>
      have ha : a.id ≠ rid := hfresh a (by simp)
      have hl : ∀ r ∈ l, r.id ≠ rid := fun r hr => hfresh r (by simp [hr])
      simp only [List.cons_append, setRequest, List.map_cons] at ih ⊢
      rw [if_neg (hid ▸ ha), List.find?_cons_of_neg _ (by simp [ha])]
      exact ih hl

theorem resolveApproval_none (t : ManagerState) (rid : String) (b : Bool)
    (rsn : Option String) (now : Nat) (h : findTimer t rid = none) :
    resolveApproval t rid b rsn now = (t, false) := by
  unfold resolveApproval
  rw [h]

theorem timerFire_none (t : ManagerState) (rid : String) (now : Nat)
    (h : findTimer t rid = none) : timerFire t rid now = t := by
  unfold timerFire
  rw [h]

/-- C1: with a gate configured for the phase, `requestApproval` leaves the
promise pending and arms a timer whose delay is the gate's timeout (in
milliseconds, default applied); if that timer fires with no manual
resolution having occurred, the request transitions to timed_out and the
promise resolves with approved-true and method timeout (fail-open). -/
theorem gated_request_times_out_fail_open (s : ManagerState)
    (phase ctx rid : String) (now now2 : Nat) (gate : GateDef)
    (hg : findGate s.gates phase = some gate)
    (hfreshT : ∀ p ∈ s.pendingTimers, p.request.id ≠ rid)
    (hfreshR : ∀ r ∈ s.requests, r.id ≠ rid) :
    (requestApproval s phase ctx rid now).2 = none ∧
    timerDelayMs (requestApproval s phase ctx rid now).1 rid = some (timeoutMs gate) ∧
    (timerFire (requestApproval s phase ctx rid now).1 rid now2).resolutions =
      (requestApproval s phase ctx rid now).1.resolutions ++
        [(rid, ⟨true, timeoutReason gate, "timeout"⟩)] ∧
    statusOf (timerFire (requestApproval s phase ctx rid now).1 rid now2) rid =
      some Status.timed_out := by
  unfold requestApproval
  rw [hg]
  have hT := findTimer_requestWithGate s phase ctx rid now gate hfreshT
  refine ⟨rfl, ?_, ?_, ?_⟩
  · unfold timerDelayMs
    rw [hT]
    rfl
  · unfold timerFire
    rw [hT]
    simp
  · unfold timerFire
    rw [hT]
    unfold statusOf
    simp only [saveState_requests, requestWithGate_requests]
    have h2 := find?_setRequest_append s.requests (newRequest phase ctx rid now gate)
      { newRequest phase ctx rid now gate with
        status := Status.timed_out
        resolvedAt := some now2
        method := some "timeout"
        reason := some (timeoutReason gate) } rid rfl rfl hfreshR
    rw [h2]
    rfl

/-- C1 witness: a deploy gate with a one-minute timeout; after the request
and the timer firing, the promise resolved approved by timeout and the
request is timed out. -/
theorem gated_request_times_out_fail_open_witness :
    (findGate (mkManager [⟨"g", "deploy", some 1, none⟩] (fun _ => none) false none
        true).gates "deploy" = some ⟨"g", "deploy", some 1, none⟩) ∧
    (let s0 := mkManager [⟨"g", "deploy", some 1, none⟩] (fun _ => none) false none true
     (requestApproval s0 "deploy" "c" "r1" 0).2 = none ∧
     timerDelayMs (requestApproval s0 "deploy" "c" "r1" 0).1 "r1" =
       some (timeoutMs ⟨"g", "deploy", some 1, none⟩) ∧
     (timerFire (requestApproval s0 "deploy" "c" "r1" 0).1 "r1" 9).resolutions =
       (requestApproval s0 "deploy" "c" "r1" 0).1.resolutions ++
         [("r1", ⟨true, timeoutReason ⟨"g", "deploy", some 1, none⟩, "timeout"⟩)] ∧
     statusOf (timerFire (requestApproval s0 "deploy" "c" "r1" 0).1 "r1" 9) "r1" =
       some Status.timed_out) :=
  ⟨by decide,
    gated_request_times_out_fail_open
      (mkManager [⟨"g", "deploy", some 1, none⟩] (fun _ => none) false none true)
      "deploy" "c" "r1" 0 9 ⟨"g", "deploy", some 1, none⟩
      (by decide) (by decide) (by decide)⟩

/-- C2: resolving a pending request succeeds exactly once: the first
`resolveApproval` returns true and appends exactly one promise resolution,
the second returns false and changes nothing; and `resolveApproval` on an
unknown or already-terminal request id returns false and changes no
state. -/
theorem resolveApproval_idempotent_and_noop (s : ManagerState) (rid : String)
    (b b2 : Bool) (rsn rsn2 : Option String) (now now2 : Nat) :
    (∀ p, findTimer s rid = some p →
      (resolveApproval s rid b rsn now).2 = true ∧
      (resolveApproval s rid b rsn now).1.resolutions =
        s.resolutions ++ [(rid, ⟨b, manualReason b rsn, "manual"⟩)] ∧
      resolveApproval (resolveApproval s rid b rsn now).1 rid b2 rsn2 now2 =
        ((resolveApproval s rid b rsn now).1, false)) ∧
    (findTimer s rid = none → resolveApproval s rid b rsn now = (s, false)) ∧
    (Inv s → ∀ st, statusOf s rid = some st → st ≠ Status.pending →
      resolveApproval s rid b rsn now = (s, false)) := by
  refine ⟨?_, resolveApproval_none s rid b rsn now, ?_⟩
  · intro p hp
    have hsecond :
        findTimer (resolveApproval s rid b rsn now).1 rid = none := by
      unfold resolveApproval
      rw [hp]
      unfold findTimer
      simp only [saveState_pendingTimers]
      exact find?_removeTimer _ _
    refine ⟨?_, ?_, resolveApproval_none _ rid b2 rsn2 now2 hsecond⟩
    · unfold resolveApproval; rw [hp]
    · unfold resolveApproval; rw [hp]; rfl
  · intro hInv st hst hterm
    apply resolveApproval_none
    cases hT : findTimer s rid with
    | none => rfl
    | some p =>
        exfalso
        obtain ⟨hpmem, hpid⟩ := findTimer_some_elim hT
        obtain ⟨hpend, _, huniq⟩ := hInv p hpmem
        unfold statusOf at hst
        cases hfind : s.requests.find? (fun r => decide (r.id = rid)) with
        | none =>
            rw [hfind] at hst
            exact Option.noConfusion hst
        | some r0 =>
            rw [hfind] at hst
            simp at hst
            have hr0mem := List.mem_of_find?_eq_some hfind
            have hr0id : r0.id = rid := by simpa using List.find?_some hfind
            have heq := huniq r0 hr0mem (by rw [hr0id, hpid])
            exact hterm (by rw [← hst, heq]; exact hpend)

/-- C2 witness: after a gated request, resolving twice returns true then
false with a single promise resolution. -/
theorem resolveApproval_idempotent_and_noop_witness :
    (let s1 := (requestApproval
        (mkManager [⟨"g", "deploy", some 1, none⟩] (fun _ => none) false none true)
        "deploy" "c" "r1" 0).1
     findTimer s1 "r1" =
       some ⟨newRequest "deploy" "c" "r1" 0 ⟨"g", "deploy", some 1, none⟩,
         ⟨"g", "deploy", some 1, none⟩⟩) ∧
    (let s1 := (requestApproval
        (mkManager [⟨"g", "deploy", some 1, none⟩] (fun _ => none) false none true)
        "deploy" "c" "r1" 0).1
     (resolveApproval s1 "r1" true (some "LGTM") 3).2 = true ∧
     (resolveApproval s1 "r1" true (some "LGTM") 3).1.resolutions =
       s1.resolutions ++ [("r1", ⟨true, manualReason true (some "LGTM"), "manual"⟩)] ∧
     resolveApproval (resolveApproval s1 "r1" true (some "LGTM") 3).1 "r1" false none 4 =
       ((resolveApproval s1 "r1" true (some "LGTM") 3).1, false)) :=
  ⟨by decide,
    (resolveApproval_idempotent_and_noop
      ((requestApproval
        (mkManager [⟨"g", "deploy", some 1, none⟩] (fun _ => none) false none true)
        "deploy" "c" "r1" 0).1)
      "r1" true false (some "LGTM") none 3 4).1
      ⟨newRequest "deploy" "c" "r1" 0 ⟨"g", "deploy", some 1, none⟩,
        ⟨"g", "deploy", some 1, none⟩⟩ (by decide)⟩

/-- C10 witness: rejecting a pending request with the reason omitted yields
Manually rejected everywhere. -/
theorem manual_resolution_default_reason_witness :
    (let s1 := (requestApproval
        (mkManager [⟨"g", "deploy", some 1, none⟩] (fun _ => none) false none true)
        "deploy" "c" "r1" 0).1
     findTimer s1 "r1" =
       some ⟨newRequest "deploy" "c" "r1" 0 ⟨"g", "deploy", some 1, none⟩,
         ⟨"g", "deploy", some 1, none⟩⟩) ∧
    (let s1 := (requestApproval
        (mkManager [⟨"g", "deploy", some 1, none⟩] (fun _ => none) false none true)
        "deploy" "c" "r1" 0).1
     (resolveApproval s1 "r1" false none 3).1.resolutions =
       s1.resolutions ++
         [("r1", ⟨false, if false then "Manually approved" else "Manually rejected",
           "manual"⟩)] ∧
     (∃ rec, (resolveApproval s1 "r1" false none 3).1.audit = s1.audit ++ [rec] ∧
       rec.reason = some (if false then "Manually approved" else "Manually rejected") ∧
       rec.method = some "manual") ∧
     (∀ r ∈ (resolveApproval s1 "r1" false none 3).1.requests, r.id = "r1" →
       r.reason = some (if false then "Manually approved" else "Manually rejected"))) :=
  ⟨by decide,
    manual_resolution_default_reason
      ((requestApproval
        (mkManager [⟨"g", "deploy", some 1, none⟩] (fun _ => none) false none true)
        "deploy" "c" "r1" 0).1)
      "r1" false 3
      ⟨newRequest "deploy" "c" "r1" 0 ⟨"g", "deploy", some 1, none⟩,
        ⟨"g", "deploy", some 1, none⟩⟩ (by decide)⟩

theorem inv_after_finish (s : ManagerState) (rid : String)
    (hInv : Inv s) (req : Request) (hreqid : req.id = rid)
    (t : ManagerState)
    (ht : t.pendingTimers = removeTimer s.pendingTimers rid)
    (hr : t.requests = setRequest s.requests req) :
    Inv t := by
  intro q hq
  rw [ht] at hq
  have hqmem : q ∈ s.pendingTimers := (List.mem_filter.mp hq).1
  have hqne : q.request.id ≠ rid := by
    have := (List.mem_filter.mp hq).2
    simpa using this
  obtain ⟨hqpend, hqmem2, hquniq⟩ := hInv q hqmem
  refine ⟨hqpend, ?_, ?_⟩
  · rw [hr]
    unfold setRequest
    refine List.mem_map.mpr ⟨q.request, hqmem2, ?_⟩
    show (if q.request.id = req.id then req else q.request) = q.request
    rw [if_neg (fun hc => hqne (hc.trans hreqid))]
  · intro r hrmem hrid
    rw [hr] at hrmem
    unfold setRequest at hrmem
    rcases List.mem_map.mp hrmem with ⟨r0, hr0mem, hr0eq⟩
    by_cases hc : r0.id = req.id
    · rw [if_pos hc] at hr0eq
      subst hr0eq
      exfalso
      apply hqne
      rw [← hrid, hreqid]
    · rw [if_neg hc] at hr0eq
      subst hr0eq
      exact hquniq r0 hr0mem hrid

theorem terminal_mem_after_finish (s : ManagerState) (rid : String) (p0 : PendingEntry)
    (hInv : Inv s) (hT : findTimer s rid = some p0)
    (req : Request) (hreqid : req.id = rid)
    (r : Request) (hr : r ∈ s.requests) (hterm : r.status ≠ Status.pending) :
    r ∈ setRequest s.requests req := by
  obtain ⟨hpmem, hpid⟩ := findTimer_some_elim hT
  obtain ⟨hpend, _, huniq⟩ := hInv p0 hpmem
  have hne : r.id ≠ req.id := by
    intro hc
    have heq : r = p0.request := huniq r hr (by rw [hc, hreqid, hpid])
    exact hterm (heq ▸ hpend)
  unfold setRequest
  refine List.mem_map.mpr ⟨r, hr, ?_⟩
  show (if r.id = req.id then req else r) = r
  rw [if_neg hne]

theorem stepOkB_request_fresh {s : ManagerState} {phase ctx rid : String} {now : Nat}
    (h : stepOkB s (Op.request phase ctx rid now) = true) :
    ∀ r ∈ s.requests, r.id ≠ rid := by
  simpa [stepOkB] using h

theorem inv_step (s : ManagerState) (op : Op) (hInv : Inv s)
    (hok : stepOkB s op = true) : Inv (step s op) := by
  cases op with
  | request phase ctx rid now =>
      have hfresh := stepOkB_request_fresh hok
      simp only [step]
      unfold requestApproval
      cases hg : findGate s.gates phase with
      | none => exact hInv
      | some gate =>
          show Inv (requestWithGate s phase ctx rid now gate)
          intro p hp
          rw [requestWithGate_pendingTimers] at hp
          rcases List.mem_append.mp hp with hold | hnew
          · obtain ⟨h1, h2, h3⟩ := hInv p hold
            refine ⟨h1, by rw [requestWithGate_requests]; exact List.mem_append_left _ h2, ?_⟩
            intro r hr hrid
            rw [requestWithGate_requests] at hr
            rcases List.mem_append.mp hr with hr | hr
            · exact h3 r hr hrid
            · exfalso
              have hrnew : r = newRequest phase ctx rid now gate := by simpa using hr
              subst hrnew
              exact hfresh p.request h2 hrid.symm
          · have hpnew : p = ⟨newRequest phase ctx rid now gate, gate⟩ := by simpa using hnew
            subst hpnew
            refine ⟨rfl, by rw [requestWithGate_requests]; exact List.mem_append_right _ (by simp), ?_⟩
            intro r hr hrid
            rw [requestWithGate_requests] at hr
            rcases List.mem_append.mp hr with hr | hr
            · exact absurd hrid (hfresh r hr)
            · simpa using hr
  | fire rid now =>
      simp only [step]
      cases hT : findTimer s rid with
      | none => rw [timerFire_none s rid now hT]; exact hInv
      | some p0 =>
          unfold timerFire
          rw [hT]
          exact inv_after_finish s rid hInv
            { p0.request with
              status := Status.timed_out
              resolvedAt := some now
              method := some "timeout"
              reason := some (timeoutReason p0.gate) }
            (findTimer_some_elim hT).2 _ rfl rfl
  | resolve rid b rsn now =>
      simp only [step]
      cases hT : findTimer s rid with
      | none => rw [resolveApproval_none s rid b rsn now hT]; exact hInv
      | some p0 =>
          unfold resolveApproval
          rw [hT]
          exact inv_after_finish s rid hInv
            { p0.request with
              status := if b then Status.approved else Status.rejected
              resolvedAt := some now
              method := some "manual"
              reason := some (manualReason b rsn) }
            (findTimer_some_elim hT).2 _ rfl rfl

theorem terminal_mem_step (s : ManagerState) (op : Op) (hInv : Inv s)
    (hok : stepOkB s op = true) (r : Request) (hr : r ∈ s.requests)
    (hterm : r.status ≠ Status.pending) : r ∈ (step s op).requests := by
  cases op with
  | request phase ctx rid now =>
      simp only [step]
      unfold requestApproval
      cases hg : findGate s.gates phase with
      | none => exact hr
      | some gate =>
          show r ∈ (requestWithGate s phase ctx rid now gate).requests
          rw [requestWithGate_requests]
          exact List.mem_append_left _ hr
  | fire rid now =>
      simp only [step]
      cases hT : findTimer s rid with
      | none => rw [timerFire_none s rid now hT]; exact hr
      | some p0 =>
          unfold timerFire
          rw [hT]
          exact terminal_mem_after_finish s rid p0 hInv hT
            { p0.request with
              status := Status.timed_out
              resolvedAt := some now
              method := some "timeout"
              reason := some (timeoutReason p0.gate) }
            (findTimer_some_elim hT).2 r hr hterm
  | resolve rid b rsn now =>
      simp only [step]
      cases hT : findTimer s rid with
      | none => rw [resolveApproval_none s rid b rsn now hT]; exact hr
      | some p0 =>
          unfold resolveApproval
          rw [hT]
          exact terminal_mem_after_finish s rid p0 hInv hT
            { p0.request with
              status := if b then Status.approved else Status.rejected
              resolvedAt := some now
              method := some "manual"
              reason := some (manualReason b rsn) }
            (findTimer_some_elim hT).2 r hr hterm

theorem inv_run : ∀ (ops : List Op) (s : ManagerState), Inv s → runOkB s ops = true →
    Inv (run s ops) ∧
      ∀ r ∈ s.requests, r.status ≠ Status.pending → r ∈ (run s ops).requests := by
  intro ops
  induction ops with
  | nil => exact fun s h _ => ⟨h, fun r hr _ => hr⟩
  | cons op ops ih =>
      intro s hInv hok
      have hok2 : stepOkB s op = true ∧ runOkB (step s op) ops = true := by
        simpa [runOkB, Bool.and_eq_true] using hok
      have hstep := inv_step s op hInv hok2.1
      obtain ⟨ha, hb⟩ := ih (step s op) hstep hok2.2
      exact ⟨ha, fun r hr hterm =>
        hb r (terminal_mem_step s op hInv hok2.1 r hr hterm) hterm⟩

/-- C3: along any run of operations with fresh request ids, the structural
invariant (pending-timer entries point at unique pending stored requests) is
preserved and a request that has reached a terminal status is never changed
again by any operation; timeout firing and manual resolution are mutually
exclusive because both remove the pending-timer entry: after either, the
other is a no-op. -/
theorem approval_state_machine (s : ManagerState) (ops : List Op)
    (hInv : Inv s) (hok : runOkB s ops = true) :
    (Inv (run s ops) ∧
      ∀ r ∈ s.requests, r.status ≠ Status.pending → r ∈ (run s ops).requests) ∧
    (∀ rid b rsn now now2,
      resolveApproval (timerFire s rid now) rid b rsn now2 =
        (timerFire s rid now, false)) ∧
    (∀ rid b rsn now now2,
      timerFire (resolveApproval s rid b rsn now).1 rid now2 =
        (resolveApproval s rid b rsn now).1) := by
  refine ⟨inv_run ops s hInv hok, ?_, ?_⟩
  · intro rid b rsn now now2
    cases hT : findTimer s rid with
    | none =>
        rw [timerFire_none s rid now hT]
        exact resolveApproval_none s rid b rsn now2 hT
    | some p =>
        apply resolveApproval_none
        unfold timerFire
        rw [hT]
        exact find?_removeTimer s.pendingTimers rid
  · intro rid b rsn now now2
    cases hT : findTimer s rid with
    | none =>
        rw [resolveApproval_none s rid b rsn now hT]
        exact timerFire_none s rid now2 hT
    | some p =>
        apply timerFire_none
        unfold resolveApproval
        rw [hT]
        exact find?_removeTimer s.pendingTimers rid

/-- C3 witness: a gated request followed by its timer firing, from a fresh
manager state. -/
theorem approval_state_machine_witness :
    (Inv (mkManager [⟨"g", "deploy", some 1, none⟩] (fun _ => none) false none true) ∧
      runOkB (mkManager [⟨"g", "deploy", some 1, none⟩] (fun _ => none) false none true)
        [Op.request "deploy" "c" "r1" 0, Op.fire "r1" 1] = true) ∧
    ((Inv (run (mkManager [⟨"g", "deploy", some 1, none⟩] (fun _ => none) false none true)
        [Op.request "deploy" "c" "r1" 0, Op.fire "r1" 1]) ∧
      ∀ r ∈ (mkManager [⟨"g", "deploy", some 1, none⟩] (fun _ => none) false none
          true).requests, r.status ≠ Status.pending →
        r ∈ (run (mkManager [⟨"g", "deploy", some 1, none⟩] (fun _ => none) false none true)
          [Op.request "deploy" "c" "r1" 0, Op.fire "r1" 1]).requests) ∧
    (∀ rid b rsn now now2,
      resolveApproval
          (timerFire (mkManager [⟨"g", "deploy", some 1, none⟩] (fun _ => none) false none
            true) rid now) rid b rsn now2 =
        (timerFire (mkManager [⟨"g", "deploy", some 1, none⟩] (fun _ => none) false none
          true) rid now, false)) ∧
    (∀ rid b rsn now now2,
      timerFire
          (resolveApproval (mkManager [⟨"g", "deploy", some 1, none⟩] (fun _ => none) false
            none true) rid b rsn now).1 rid now2 =
        (resolveApproval (mkManager [⟨"g", "deploy", some 1, none⟩] (fun _ => none) false
          none true) rid b rsn now).1)) :=
  ⟨⟨by decide, by decide⟩,
    approval_state_machine
      (mkManager [⟨"g", "deploy", some 1, none⟩] (fun _ => none) false none true)
      [Op.request "deploy" "c" "r1" 0, Op.fire "r1" 1] (by decide) (by decide)⟩

theorem chainOk_buildLedger (H : Nat → Nat → Nat) :
    ∀ (bodies : List Nat) (prev : Nat), ChainOk H prev (buildLedger H prev bodies) := by
  intro bodies
  induction bodies with
  | nil => intro prev; trivial
  | cons b bs ih =>
      intro prev
      show H prev b = H prev b ∧ ChainOk H (H prev b) (buildLedger H (H prev b) bs)
      exact ⟨rfl, ih (H prev b)⟩

theorem verifyFrom_build_append (H : Nat → Nat → Nat) :
    ∀ (bodies : List Nat) (prev idx : Nat) (rest : List (Option LedgerEntry)),
      verifyFrom H prev idx ((buildLedger H prev bodies).map some ++ rest) =
        verifyFrom H (List.foldl H prev bodies) (idx + bodies.length) rest := by
  intro bodies
  induction bodies with
  | nil => intro prev idx rest; simp [buildLedger]
  | cons b bs ih =>
      intro prev idx rest
      simp only [buildLedger, List.map_cons, List.cons_append, verifyFrom,
        List.foldl_cons, List.length_cons]
      have harith : idx + (bs.length + 1) = idx + 1 + bs.length := by omega
      rw [if_pos trivial, harith]
      exact ih (H prev b) (idx + 1) rest

theorem recomputedMismatch_propagate (H : Nat → Nat → Nat)
    (hInj : ∀ a b c d, H a b = H c d → a = c ∧ b = d) :
    ∀ (es : List LedgerEntry) (rprev sprev : Nat),
      ChainOk H sprev es → rprev ≠ sprev → RecomputedMismatch H rprev es := by
  intro es
  induction es with
  | nil => intro _ _ _ _; trivial
  | cons e es ih =>
      intro rprev sprev hok hne
      have hok2 : e.chain_hash = H sprev e.body ∧ ChainOk H e.chain_hash es := hok
      obtain ⟨he, hrest⟩ := hok2
      show H rprev e.body ≠ e.chain_hash ∧ RecomputedMismatch H (H rprev e.body) es
      constructor
      · intro hc
        rw [he] at hc
        exact hne (hInj _ _ _ _ hc).1
      · apply ih (H rprev e.body) e.chain_hash hrest
        intro hc
        rw [he] at hc
        exact hne (hInj _ _ _ _ hc).1

/-- C5: `verify` on the untouched segment of N appended entries returns
valid with entriesChecked N, and the appended entries satisfy the chain
invariant: the first entry chains from the fixed genesis value, and every
later entry's chain hash is H of the previous entry's chain hash and its
own serialized body. -/
theorem ledger_chain_integrity (H : Nat → Nat → Nat) (bodies : List Nat) :
    verify H ((buildLedger H genesisHash bodies).map some) =
      ⟨true, bodies.length, none⟩ ∧
    ChainOk H genesisHash (buildLedger H genesisHash bodies) := by
  constructor
  · have h := verifyFrom_build_append H bodies genesisHash 0 []
    rw [List.append_nil] at h
    unfold verify
    rw [h]
    simp [verifyFrom]
  · exact chainOk_buildLedger H bodies genesisHash

/-- C6 counterexample: in the written two-entry segment over the injective
hash Nat.pair with bodies 5 and 7 (stored hashes 25 and 657), the
single-field mutation of entry 0's chain_hash from 25 to 26 is reported with
firstTamperedLine 0, but entry 1 does not fail recomputation: recomputing
the chain from genesis over the mutated segment reproduces entry 1's stored
hash, refuting that all entries after the tampered one fail recomputation. -/
theorem tamper_detection_counterexample :
    buildLedger Nat.pair genesisHash [5, 7] = [⟨5, 25⟩, ⟨7, 657⟩] ∧
    verify Nat.pair [some ⟨5, 26⟩, some ⟨7, 657⟩] = ⟨false, 0, some 0⟩ ∧
    ¬ RecomputedMismatch Nat.pair genesisHash [⟨5, 26⟩, ⟨7, 657⟩] := by
  decide

/-- C6 (amended): for an injective hash, a mutation of the serialized body
of entry k in a written segment is reported with firstTamperedLine k and
every entry from k on fails recomputation; a mutation of the chain_hash
field of entry k, and an unparseable line k, are also reported with
firstTamperedLine k (verification is total and fails closed), but need not
make later entries fail recomputation. -/
theorem tamper_detection_amended (H : Nat → Nat → Nat)
    (hInj : ∀ a b c d, H a b = H c d → a = c ∧ b = d)
    (pre : List Nat) (bk : Nat) (post : List Nat) (bBad hBad : Nat)
    (hb : bBad ≠ bk) (hh : hBad ≠ H (List.foldl H genesisHash pre) bk) :
    (verify H ((buildLedger H genesisHash pre ++
        ⟨bBad, H (List.foldl H genesisHash pre) bk⟩ ::
          buildLedger H (H (List.foldl H genesisHash pre) bk) post).map some) =
        ⟨false, pre.length, some pre.length⟩ ∧
      RecomputedMismatch H (List.foldl H genesisHash pre)
        (⟨bBad, H (List.foldl H genesisHash pre) bk⟩ ::
          buildLedger H (H (List.foldl H genesisHash pre) bk) post)) ∧
    verify H ((buildLedger H genesisHash pre ++
        ⟨bk, hBad⟩ :: buildLedger H (H (List.foldl H genesisHash pre) bk) post).map some) =
      ⟨false, pre.length, some pre.length⟩ ∧
    verify H ((buildLedger H genesisHash pre).map some ++ none ::
        (buildLedger H (H (List.foldl H genesisHash pre) bk) post).map some) =
      ⟨false, pre.length, some pre.length⟩ := by
  have hgne : H (List.foldl H genesisHash pre) bBad ≠
      H (List.foldl H genesisHash pre) bk :=
    fun hc => hb (hInj _ _ _ _ hc).2
  refine ⟨⟨?_, ?_, ?_⟩, ?_, ?_⟩
  · unfold verify
    rw [List.map_append, List.map_cons,
      verifyFrom_build_append H pre genesisHash 0 _]
    show (if H (List.foldl H genesisHash pre) bBad =
        H (List.foldl H genesisHash pre) bk then _ else _) = _
    rw [if_neg hgne]
    simp
  · exact hgne
  · exact recomputedMismatch_propagate H hInj _
      (H (List.foldl H genesisHash pre) bBad)
      (H (List.foldl H genesisHash pre) bk)
      (chainOk_buildLedger H post _) hgne
  · unfold verify
    rw [List.map_append, List.map_cons,
      verifyFrom_build_append H pre genesisHash 0 _]
    show (if H (List.foldl H genesisHash pre) bk = hBad then _ else _) = _
    rw [if_neg (fun hc => hh hc.symm)]
    simp
  · unfold verify
    rw [verifyFrom_build_append H pre genesisHash 0 _]
    simp [verifyFrom]

/-- C6 witness for the amended theorem: a concrete three-entry segment over
Nat.pair with the middle entry mutated each of the three ways. -/
theorem tamper_detection_amended_witness :
    ((6 : Nat) ≠ 5 ∧
      (96 : Nat) ≠ Nat.pair (List.foldl Nat.pair genesisHash [3]) 5) ∧
    ((verify Nat.pair ((buildLedger Nat.pair genesisHash [3] ++
        ⟨6, Nat.pair (List.foldl Nat.pair genesisHash [3]) 5⟩ ::
          buildLedger Nat.pair (Nat.pair (List.foldl Nat.pair genesisHash [3]) 5)
            [7]).map some) =
        ⟨false, List.length [3], some (List.length [3])⟩ ∧
      RecomputedMismatch Nat.pair (List.foldl Nat.pair genesisHash [3])
        (⟨6, Nat.pair (List.foldl Nat.pair genesisHash [3]) 5⟩ ::
          buildLedger Nat.pair (Nat.pair (List.foldl Nat.pair genesisHash [3]) 5) [7])) ∧
    verify Nat.pair ((buildLedger Nat.pair genesisHash [3] ++
        ⟨5, 96⟩ :: buildLedger Nat.pair
          (Nat.pair (List.foldl Nat.pair genesisHash [3]) 5) [7]).map some) =
      ⟨false, List.length [3], some (List.length [3])⟩ ∧
    verify Nat.pair ((buildLedger Nat.pair genesisHash [3]).map some ++ none ::
        (buildLedger Nat.pair (Nat.pair (List.foldl Nat.pair genesisHash [3]) 5)
          [7]).map some) =
      ⟨false, List.length [3], some (List.length [3])⟩) :=
  ⟨⟨by decide, by decide⟩,
    tamper_detection_amended Nat.pair (fun a b c d h => Nat.pair_eq_pair.mp h)
      [3] 5 [7] 6 96 (by decide) (by decide)⟩

/-- Spec-worded predicate: an operation is a direct write to the state
file. -/
def writesStateFile : FsOp → Bool
  | FsOp.writeFile f _ _ => decide (f = stateFile)
  | _ => false

/-- Spec-worded predicate: an operation renames something onto the state
file. -/
def renamesToStateFile : FsOp → Bool
  | FsOp.rename _ dst => decide (dst = stateFile)
  | _ => false

/-- Spec-worded predicate (for claim comparison): a file-system trace
replaces the state file atomically in the write-temp-then-rename sense —
the state file itself is never written directly; it is produced by renaming
another path onto it. -/
def AtomicReplace (tr : List FsOp) : Prop :=
  (∀ op ∈ tr, writesStateFile op = false) ∧ ∃ op ∈ tr, renamesToStateFile op = true

instance instAtomicReplaceDec (tr : List FsOp) : Decidable (AtomicReplace tr) := by
  unfold AtomicReplace; infer_instance

/-- C7 counterexample: the very first mutation (a gated request from a fresh
manager) persists the state by writing the state file directly in place —
a single `writeFile` of the whole state, with no temp file and no rename —
so the rewrite is not atomic in the write-temp-then-rename sense. -/
theorem atomic_rewrite_counterexample :
    ((requestApproval
        (mkManager [⟨"g", "deploy", some 5, none⟩] (fun _ => none) false none true)
        "deploy" "ctx" "r1" 0).1).fsTrace =
      [FsOp.writeFile stateFile
        ((requestApproval
          (mkManager [⟨"g", "deploy", some 5, none⟩] (fun _ => none) false none true)
          "deploy" "ctx" "r1" 0).1).requests
        ((requestApproval
          (mkManager [⟨"g", "deploy", some 5, none⟩] (fun _ => none) false none true)
          "deploy" "ctx" "r1" 0).1).audit] ∧
    ¬ AtomicReplace
      ((requestApproval
        (mkManager [⟨"g", "deploy", some 5, none⟩] (fun _ => none) false none true)
        "deploy" "ctx" "r1" 0).1).fsTrace := by
  decide

/-- C7 (amended): after every mutation of approval state (creating a pending
request, timeout firing, manual resolution) the persisted state file is
rewritten wholesale — the trace grows by exactly one `_saveState`, namely an
optional mkdir of the state directory followed by a single direct whole-file
write of the full new `{requests, audit}` — but the write is a direct
in-place `writeFileSync`, not a write-temp-then-rename, so it is not atomic
in the spec's sense and a concurrent reader may observe the file
mid-write. -/
theorem state_rewrite_wholesale_direct (s : ManagerState) :
    (∀ phase ctx rid now gate, findGate s.gates phase = some gate →
      ((requestApproval s phase ctx rid now).1).fsTrace =
        s.fsTrace ++ saveStateOps s.stateDirExists
          ((requestApproval s phase ctx rid now).1).requests
          ((requestApproval s phase ctx rid now).1).audit) ∧
    (∀ rid now p, findTimer s rid = some p →
      (timerFire s rid now).fsTrace =
        s.fsTrace ++ saveStateOps s.stateDirExists
          (timerFire s rid now).requests (timerFire s rid now).audit) ∧
    (∀ rid b rsn now p, findTimer s rid = some p →
      ((resolveApproval s rid b rsn now).1).fsTrace =
        s.fsTrace ++ saveStateOps s.stateDirExists
          ((resolveApproval s rid b rsn now).1).requests
          ((resolveApproval s rid b rsn now).1).audit) ∧
    (∀ dirEx reqs aud,
      FsOp.writeFile stateFile reqs aud ∈ saveStateOps dirEx reqs aud ∧
      (saveStateOps dirEx reqs aud).countP writesStateFile = 1 ∧
      ∀ op ∈ saveStateOps dirEx reqs aud, renamesToStateFile op = false) := by
  refine ⟨?_, ?_, ?_, ?_⟩
  · intro phase ctx rid now gate hg
    unfold requestApproval
    rw [hg]
    show (requestWithGate s phase ctx rid now gate).fsTrace =
      s.fsTrace ++ saveStateOps s.stateDirExists
        (requestWithGate s phase ctx rid now gate).requests
        (requestWithGate s phase ctx rid now gate).audit
    rw [requestWithGate_fsTrace, requestWithGate_requests, requestWithGate_audit]
  · intro rid now p hT
    unfold timerFire
    rw [hT]
    rfl
  · intro rid b rsn now p hT
    unfold resolveApproval
    rw [hT]
    rfl
  · intro dirEx reqs aud
    cases dirEx with
    | false =>
        refine ⟨by simp [saveStateOps], by simp [saveStateOps, writesStateFile], ?_⟩
        intro op hop
        have hcases : op = FsOp.mkdirRec stateDir ∨
            op = FsOp.writeFile stateFile reqs aud := by
          simpa [saveStateOps] using hop
        rcases hcases with h | h <;> (subst h; rfl)
    | true =>
        refine ⟨by simp [saveStateOps], by simp [saveStateOps, writesStateFile], ?_⟩
        intro op hop
        have hcase : op = FsOp.writeFile stateFile reqs aud := by
          simpa [saveStateOps] using hop
        subst hcase
        rfl

/-- C7 witness for the amended theorem: the request branch and the
fire branch at a concrete state with a pending timer. -/
theorem state_rewrite_wholesale_direct_witness :
    (findGate (mkManager [⟨"g", "deploy", some 5, none⟩] (fun _ => none) false none
        true).gates "deploy" = some ⟨"g", "deploy", some 5, none⟩) ∧
    ((requestApproval
        (mkManager [⟨"g", "deploy", some 5, none⟩] (fun _ => none) false none true)
        "deploy" "ctx" "r1" 0).1).fsTrace =
      (mkManager [⟨"g", "deploy", some 5, none⟩] (fun _ => none) false none true).fsTrace
        ++ saveStateOps
          (mkManager [⟨"g", "deploy", some 5, none⟩] (fun _ => none) false none
            true).stateDirExists
          ((requestApproval
            (mkManager [⟨"g", "deploy", some 5, none⟩] (fun _ => none) false none true)
            "deploy" "ctx" "r1" 0).1).requests
          ((requestApproval
            (mkManager [⟨"g", "deploy", some 5, none⟩] (fun _ => none) false none true)
            "deploy" "ctx" "r1" 0).1).audit :=
  ⟨by decide,
    (state_rewrite_wholesale_direct
      (mkManager [⟨"g", "deploy", some 5, none⟩] (fun _ => none) false none true)).1
      "deploy" "ctx" "r1" 0 ⟨"g", "deploy", some 5, none⟩ (by decide)⟩

end LokiSpec
